import Mathlib

/-!
Shallow embedding of the spectral-fitting pipeline of `gammapy/spectrum/fit.py`
(`SpectrumFit`), together with proofs about its behaviour.

Modelling conventions:
* Energy bin edges are rationals (the code compares astropy quantities with
  `<` / `>`; we need decidable order).
* An observation's `e_reco` attribute is the list of bin edges (length
  `nbins + 1`); `energy[:-1]` are the lower bin edges.
* Per-bin quality flags (`obs.on_vector.quality`, an array of 0/1 integers)
  are modelled as `Option (List Bool)` with `true` = flagged bad; `none`
  models the `AttributeError` branch (observation exposes no quality flags).
* Counts and statistics are real numbers.
-/

namespace SpectrumFit

/-- An observation record, restricted to the attributes `SpectrumFit` reads:
the reconstructed-energy bin edges (`obs.e_reco`), the on-counts vector
(`obs.on_vector.data.data.value`), the off-counts vector, the background
scale `alpha`, and the optional per-bin quality flags
(`obs.on_vector.quality`). -/
structure SpectrumObservation where
  e_reco : List ℚ
  on_counts : List ℝ
  off_counts : List ℝ
  alpha : ℝ
  quality : Option (List Bool)

/-- `energy.nbins`: number of bins spanned by an edge array. -/
def nbins (edges : List ℚ) : ℕ := edges.length - 1

/-- Lower bin edges, `energy[:-1]`. -/
def lowEdges (edges : List ℚ) : List ℚ := edges.dropLast

/-- The `idx_lo` step of `_apply_fit_range`:
`idx_lo = np.where(energy < self.fit_range[0])[0]; valid_range[idx_lo] = 1`.
Edge index `i` marks bin `i`, so bin `i` is marked out-of-range on the low
side exactly when its lower edge `energy[i]` is below the lower bound.
(An edge index `≥ nbins` below the bound would be an out-of-bounds numpy
assignment; we model the in-bounds bin indices `0 ≤ i < nbins`.) -/
def excludedLo (edges : List ℚ) (lo : ℚ) (i : ℕ) : Bool :=
  decide (edges.getD i 0 < lo)

/-- `idx_hi = np.where(energy[:-1] > self.fit_range[1])[0]`: the bins whose
lower edge exceeds the upper bound. -/
def idxHi (edges : List ℚ) (hi : ℚ) : List ℕ :=
  (List.range (nbins edges)).filter (fun k => decide (hi < edges.getD k 0))

/-- `if len(idx_hi) != 0: idx_hi = np.insert(idx_hi, 0, idx_hi[0] - 1)`.
When `idx_hi[0] = 0` the inserted numpy index is `-1`, which addresses the
*last* bin (`valid_range[-1]`). -/
def idxHiIns (edges : List ℚ) (hi : ℚ) : List ℕ :=
  match idxHi edges hi with
  | [] => []
  | f :: rest => (if f = 0 then nbins edges - 1 else f - 1) :: f :: rest

/-- Bin `i` is marked out of the fit range (`valid_range[i] = 1`) by
`_apply_fit_range` for a given global `fit_range`.  With no global range the
`valid_range` array stays all-zero. -/
def excludedByRange (edges : List ℚ) (fitRange : Option (ℚ × ℚ)) (i : ℕ) : Bool :=
  match fitRange with
  | none => false
  | some (lo, hi) => excludedLo edges lo i || (idxHiIns edges hi).contains i

/-- The quality flags used by `_apply_fit_range`: `obs.on_vector.quality`,
defaulting to `np.zeros(obs.e_reco.nbins)` when the attribute is absent. -/
def qualityOf (obs : SpectrumObservation) : List Bool :=
  obs.quality.getD (List.replicate (nbins obs.e_reco) false)

/-- One entry of `self._bins_in_fit_range` for one observation:
`convolved = np.logical_and(1 - quality, 1 - valid_range)`; `true` means the
bin participates in the fit. -/
def binsInFitRange (fitRange : Option (ℚ × ℚ)) (obs : SpectrumObservation) : List Bool :=
  (List.range (nbins obs.e_reco)).map (fun i =>
    !(qualityOf obs).getD i false && !excludedByRange obs.e_reco fitRange i)

/-- `idx = np.where(binrange)[0]`: the indices of the mask-included bins,
in increasing order. -/
def includedIdx (fitRange : Option (ℚ × ℚ)) (obs : SpectrumObservation) : List ℕ :=
  (List.range (binsInFitRange fitRange obs).length).filter
    (fun i => (binsInFitRange fitRange obs).getD i false)

/-- The per-observation entry of the `true_fit_range` property:
`idx = np.where(binrange)[0]; e_min = obs.e_reco[idx[0]];
e_max = obs.e_reco[idx[-1] + 1]`.  An empty mask makes `idx[0]` an
`IndexError` in the source; we return `none` there. -/
def trueFitRange (fitRange : Option (ℚ × ℚ)) (obs : SpectrumObservation) :
    Option (ℚ × ℚ) :=
  match includedIdx fitRange obs with
  | [] => none
  | i0 :: _ =>
      some (obs.e_reco.getD i0 0,
        obs.e_reco.getD ((includedIdx fitRange obs).getLastD 0 + 1) 0)

/-- Modelled from the spec: `stats.cash` lives outside `src/`; the spec gives
its per-bin form as `2 * (mu - n*ln(mu))`.  The natural logarithm is passed
in as `log` to keep the definition executable (the intended instantiation is
`Real.log`).  Argument order follows the call site
`stats.cash(n_on=..., mu_on=...)`. -/
def cash (log : ℝ → ℝ) (n mu : ℝ) : ℝ := 2 * (mu - n * log mu)

/-- `_calc_statval_helper`: dispatch on the statistic name.  `stats.wstat`
lives outside `src/` and the spec states no closed form for it, so the
W-statistic per-bin function is passed in as the parameter `wstatFn`
(arguments `n_on n_off alpha mu_sig`); likewise `log` is the logarithm used
by `cash`.  Unknown names raise `NotImplementedError`, modelled as
`Except.error`. -/
def calcStatvalHelper (log : ℝ → ℝ) (wstatFn : ℝ → ℝ → ℝ → ℝ → ℝ) (stat : String)
    (obs : SpectrumObservation) (prediction : List ℝ) : Except String (List ℝ) :=
  if stat = "cash" then
    Except.ok (List.zipWith (cash log) obs.on_counts prediction)
  else if stat = "wstat" then
    Except.ok (List.zipWith
      (fun onOff mu => wstatFn onOff.1 onOff.2 obs.alpha mu)
      (obs.on_counts.zip obs.off_counts) prediction)
  else
    Except.error stat

/-- `_restrict_statval` for one observation:
`val = np.where(valid_range, statval, 0)`. -/
def restrictStatval (validRange : List Bool) (statval : List ℝ) : List ℝ :=
  List.zipWith (fun v s => if v then s else 0) validRange statval

/-- The unit attached to a predicted-counts quantity, reduced to the two
queries `_predict_counts_helper` performs on it:
`counts.unit.is_equivalent('ct')` and `counts.unit.is_equivalent('')`
(astropy units are an external collaborator). -/
structure CountUnit where
  equivCt : Bool
  equivOne : Bool

/-- A unit-carrying array, as returned by the external model evaluation. -/
structure Quantity where
  values : List ℝ
  unit : CountUnit

/-- `_predict_counts_helper`: both branches (forward-folded via
`calculate_predicted_counts`, direct via `model.integral`) delegate the
numerical evaluation to external collaborators, modelled by `computeRaw`;
the helper itself then applies the unit check
`cond = counts.unit.is_equivalent('ct') or counts.unit.is_equivalent('')`
and either strips the unit or raises `ValueError`. -/
def predictCountsHelper (computeRaw : Bool → SpectrumObservation → Quantity)
    (forwardFolded : Bool) (obs : SpectrumObservation) : Except String (List ℝ) :=
  let counts := computeRaw forwardFolded obs
  if counts.unit.equivCt || counts.unit.equivOne then
    Except.ok counts.values
  else
    Except.error "Predicted counts"

/-- `predict_counts`: predict for all observations in order; the first
unit failure aborts (`ValueError` propagates). -/
def predictCounts (computeRaw : Bool → SpectrumObservation → Quantity)
    (forwardFolded : Bool) :
    List SpectrumObservation → Except String (List (List ℝ))
  | [] => Except.ok []
  | obs :: rest =>
    match predictCountsHelper computeRaw forwardFolded obs with
    | Except.error e => Except.error e
    | Except.ok c =>
      match predictCounts computeRaw forwardFolded rest with
      | Except.error e => Except.error e
      | Except.ok cs => Except.ok (c :: cs)

/-- `calc_statval`: statistic for all observations (the source zips
`self.obs_list` with `self.predicted_counts`), then `_restrict_statval`
zeroes the bins outside each observation's mask. -/
def calcStatval (log : ℝ → ℝ) (wstatFn : ℝ → ℝ → ℝ → ℝ → ℝ) (stat : String)
    (fitRange : Option (ℚ × ℚ)) :
    List SpectrumObservation → List (List ℝ) → Except String (List (List ℝ))
  | [], _ => Except.ok []
  | _ :: _, [] => Except.ok []
  | obs :: obsRest, npred :: npredRest =>
    match calcStatvalHelper log wstatFn stat obs npred with
    | Except.error e => Except.error e
    | Except.ok sv =>
      match calcStatval log wstatFn stat fitRange obsRest npredRest with
      | Except.error e => Except.error e
      | Except.ok svs =>
        Except.ok (restrictStatval (binsInFitRange fitRange obs) sv :: svs)

/-- The mutable state the optimizer-driven iteration leaves behind:
`self.predicted_counts` and `self.statval` (both `None` before the first
iteration). -/
structure FitState where
  predicted_counts : Option (List (List ℝ))
  statval : Option (List (List ℝ))

/-- Modelled from the spec: the per-iteration driver (`SherpaStat` in
`sherpa_utils.py`, not under `src/`) performs, per spec §4.4, "(a) request
predicted counts …, (b) request statistic values …"; i.e. it calls
`predict_counts` (storing `self.predicted_counts`) and then `calc_statval`
(which reads `self.predicted_counts` and stores `self.statval`).  The
returned state records which attributes were populated before any error. -/
def fitIteration (computeRaw : Bool → SpectrumObservation → Quantity)
    (log : ℝ → ℝ) (wstatFn : ℝ → ℝ → ℝ → ℝ → ℝ) (stat : String)
    (forwardFolded : Bool) (fitRange : Option (ℚ × ℚ))
    (obsList : List SpectrumObservation) : FitState × Except String Unit :=
  match predictCounts computeRaw forwardFolded obsList with
  | Except.error e => (⟨none, none⟩, Except.error e)
  | Except.ok pcs =>
    match calcStatval log wstatFn stat fitRange obsList pcs with
    | Except.error e => (⟨some pcs, none⟩, Except.error e)
    | Except.ok svs => (⟨some pcs, some svs⟩, Except.ok ())

/-- The possible Python values handed to `__init__` as `obs_list`: a single
`SpectrumObservation`, a `SpectrumObservationList`, or any other Python
object (modelled by its repr string). -/
inductive ObsListInput where
  | single (obs : SpectrumObservation)
  | list (l : List SpectrumObservation)
  | invalid (repr : String)

/-- A spectral model, reduced to its parameter values (the model itself is
an external collaborator; `SpectrumFit` only stores, copies and mutates
it). -/
structure Model where
  parvals : List ℚ

/-- The fit object after a successful `__init__` (the attributes assigned
in lines 67-81 of `fit.py`; the derived mask list is recomputed from
`fit_range` by the property setter and therefore not stored here). -/
structure Fit where
  obs_list : List SpectrumObservation
  model : Model
  stat : String
  forward_folded : Bool
  fit_range : Option (ℚ × ℚ)
  method : String
  err_method : String
  predicted_counts : Option (List (List ℝ))
  statval : Option (List (List ℝ))

/-- `SpectrumFit.__init__`: a lone `SpectrumObservation` is wrapped into a
one-element `SpectrumObservationList`; anything that is not (now) a
`SpectrumObservationList` raises `ValueError` before any attribute is
assigned.  Note line 73 assigns `self.err_method = method`, not
`err_method`. -/
def init (obs_list : ObsListInput) (model : Model) (stat : String)
    (forward_folded : Bool) (fit_range : Option (ℚ × ℚ)) (method : String)
    (err_method : String) : Except String Fit :=
  let wrapped : ObsListInput :=
    match obs_list with
    | ObsListInput.single obs => ObsListInput.list [obs]
    | other => other
  match wrapped with
  | ObsListInput.list l =>
      Except.ok
        { obs_list := l
          model := model
          stat := stat
          forward_folded := forward_folded
          fit_range := fit_range
          method := method
          err_method := method
          predicted_counts := none
          statval := none }
  | _ => Except.error "Invalid input for parameter obs_list"

/-! ### Heap model for the result assembler

`_make_fit_result` stores `model = self.model.copy()` in each
`SpectrumFitResult`.  Whether later mutation of the live model leaks into a
stored result is a question about object identity, so models live in an
explicit heap: addresses are indices, `copy()` allocates a fresh address
holding the same parameter values, and mutating a parameter writes through
the live model's address. -/

/-- The object heap: `cells.length` addresses, allocation appends. -/
structure Heap where
  cells : List Model

/-- Read the model object at an address. -/
def Heap.get (h : Heap) (a : ℕ) : Model := h.cells.getD a ⟨[]⟩

/-- Overwrite the model object at an address (parameter mutation on the
object living there). -/
def Heap.set (h : Heap) (a : ℕ) (m : Model) : Heap := ⟨h.cells.set a m⟩

/-- `model.copy()`: allocate a fresh object with the same parameter values;
returns the new heap and the fresh address. -/
def Heap.copyFrom (h : Heap) (a : ℕ) : Heap × ℕ :=
  (⟨h.cells ++ [h.get a]⟩, h.cells.length)

/-- The slice of a `SpectrumFitResult` that `_make_fit_result` fills from the
live fit state: the model snapshot (an address into the heap) and the summed
per-observation statistic `np.sum(self.statval[idx])`. -/
structure SpectrumFitResult where
  modelAddr : ℕ
  statval : ℝ

/-- The state `_make_fit_result` works on: the heap, the live model address
(`self.model`), the restricted per-observation statistics (`self.statval`)
and the accumulating `self.result` list. -/
structure ResultState where
  heap : Heap
  modelAddr : ℕ
  statvals : List (List ℝ)
  result : List SpectrumFitResult

/-- Loop body of `_make_fit_result`: walk the remaining observations
(`statvals`), each round copying the live model and appending a result. -/
def makeFitResultAux (heap : Heap) (modelAddr : ℕ) :
    List (List ℝ) → List SpectrumFitResult → Heap × List SpectrumFitResult
  | [], acc => (heap, acc)
  | sv :: rest, acc =>
    let (h, addr) := heap.copyFrom modelAddr
    makeFitResultAux h modelAddr rest (acc ++ [⟨addr, sv.sum⟩])

/-- `_make_fit_result`: for each observation (index into `self.statval`),
copy the live model and append a result record holding the copy's address
and the summed statistic. -/
def makeFitResult (s : ResultState) : ResultState :=
  let (h, res) := makeFitResultAux s.heap s.modelAddr s.statvals s.result
  { heap := h, modelAddr := s.modelAddr, statvals := s.statvals, result := res }

/-! ### Concrete observations used as test inputs -/

/-- Three bins with edges 2,4,6,8, no quality flags. -/
def obsThreeBins : SpectrumObservation :=
  ⟨[2, 4, 6, 8], [5, 5, 5], [3, 3, 3], 1, none⟩

/-- Two bins with edges 2,4,6, no quality flags. -/
def obsTwoBins : SpectrumObservation :=
  ⟨[2, 4, 6], [5, 5], [3, 3], 1, none⟩

/-! ### Basic facts about the fit mask -/

lemma length_binsInFitRange (fitRange : Option (ℚ × ℚ)) (obs : SpectrumObservation) :
    (binsInFitRange fitRange obs).length = nbins obs.e_reco := by
  simp [binsInFitRange]

lemma getD_binsInFitRange (fitRange : Option (ℚ × ℚ)) (obs : SpectrumObservation)
    (i : ℕ) (h : i < nbins obs.e_reco) :
    (binsInFitRange fitRange obs).getD i false
      = (!(qualityOf obs).getD i false && !excludedByRange obs.e_reco fitRange i) := by
  rw [List.getD_eq_getElem _ _ (by simpa [length_binsInFitRange] using h)]
  simp [binsInFitRange]

/-- **C1.** A bin participates in the fit mask computed by
`_apply_fit_range` exactly when it is not marked out of the global fit
range (`valid_range[i] = 0`, vacuous when no range is set) and its quality
flag is good; in particular, with no global range and no quality attribute,
every bin participates. -/
theorem fit_mask_includes_iff (fitRange : Option (ℚ × ℚ)) (obs : SpectrumObservation)
    (i : ℕ) (h : i < nbins obs.e_reco) :
    ((binsInFitRange fitRange obs).getD i false = true ↔
      (excludedByRange obs.e_reco fitRange i = false ∧
        (qualityOf obs).getD i false = false))
    ∧ (fitRange = none → obs.quality = none →
        (binsInFitRange fitRange obs).getD i false = true) := by
  constructor
  · rw [getD_binsInFitRange _ _ _ h]
    cases hq : (qualityOf obs).getD i false <;>
      cases he : excludedByRange obs.e_reco fitRange i <;> simp
  · rintro rfl hq
    rw [getD_binsInFitRange _ _ _ h]
    have hrep : (qualityOf obs).getD i false = false := by
      rw [qualityOf, hq]
      rw [Option.getD_none,
        List.getD_eq_getElem _ _ (by simpa using h)]
      simp
    rw [hrep]
    simp [excludedByRange]

/-- Witness for **C1** at a concrete input: two bins, no range, no quality
flags; bin 0 is included. -/
theorem fit_mask_includes_iff_witness :
    0 < nbins obsTwoBins.e_reco ∧
    (((binsInFitRange none obsTwoBins).getD 0 false = true ↔
      (excludedByRange obsTwoBins.e_reco none 0 = false ∧
        (qualityOf obsTwoBins).getD 0 false = false))
    ∧ ((none : Option (ℚ × ℚ)) = none → obsTwoBins.quality = none →
        (binsInFitRange none obsTwoBins).getD 0 false = true)) :=
  ⟨by decide, fit_mask_includes_iff none obsTwoBins 0 (by decide)⟩

/-! ### Constructor behaviour -/

/-- **C9.** `__init__` wraps a single `SpectrumObservation` into a
one-element `SpectrumObservationList` (a single record and the singleton
sequence construct identical fit objects, whose `obs_list` is the singleton
list), and any input that is neither a single observation nor an
observation list raises `ValueError` immediately (the constructor performs
no other work: no fit object is produced). -/
theorem init_wraps_single_and_rejects_invalid :
    (∀ (obs : SpectrumObservation) (model : Model) (stat : String) (ff : Bool)
        (fr : Option (ℚ × ℚ)) (m em : String),
      init (ObsListInput.single obs) model stat ff fr m em
        = init (ObsListInput.list [obs]) model stat ff fr m em
      ∧ ∃ fit, init (ObsListInput.single obs) model stat ff fr m em = Except.ok fit
          ∧ fit.obs_list = [obs])
    ∧ (∀ (r : String) (model : Model) (stat : String) (ff : Bool)
        (fr : Option (ℚ × ℚ)) (m em : String),
      init (ObsListInput.invalid r) model stat ff fr m em
        = Except.error "Invalid input for parameter obs_list") :=
  ⟨fun _ _ _ _ _ _ _ => ⟨rfl, ⟨_, rfl, rfl⟩⟩, fun _ _ _ _ _ _ _ => rfl⟩

/-- **C10.** Line 73 of `fit.py` assigns `self.err_method = method`: after
construction the `err_method` attribute always equals the `method`
argument, whatever `err_method` argument was passed. -/
theorem err_method_equals_method (obs_list : ObsListInput) (model : Model)
    (stat : String) (ff : Bool) (fr : Option (ℚ × ℚ)) (method err_method : String)
    (fit : Fit) (h : init obs_list model stat ff fr method err_method = Except.ok fit) :
    fit.err_method = method := by
  cases obs_list with
  | single obs => cases h; rfl
  | list l => cases h; rfl
  | invalid r => cases h

/-- Witness for **C10**: constructing with `method = "sherpa"` and
`err_method = "minuit"` yields `err_method = "sherpa"`. -/
theorem err_method_equals_method_witness :
    init (ObsListInput.list []) ⟨[2]⟩ "wstat" true none "sherpa" "minuit"
      = Except.ok ⟨[], ⟨[2]⟩, "wstat", true, none, "sherpa", "sherpa", none, none⟩
    ∧ (⟨[], ⟨[2]⟩, "wstat", true, none, "sherpa", "sherpa", none, none⟩ : Fit).err_method
      = "sherpa" :=
  ⟨rfl, err_method_equals_method (ObsListInput.list []) ⟨[2]⟩ "wstat" true none
    "sherpa" "minuit" _ rfl⟩

/-! ### Unit check at prediction time -/

/-- **C6.** `_predict_counts_helper` returns the plain value array exactly
when the predicted counts' unit is equivalent to counts (`'ct'`) or
dimensionless (`''`); any other unit makes it raise
`ValueError('Predicted counts ...')` instead. -/
theorem predict_counts_unit_check (computeRaw : Bool → SpectrumObservation → Quantity)
    (ff : Bool) (obs : SpectrumObservation) :
    (predictCountsHelper computeRaw ff obs = Except.ok (computeRaw ff obs).values ↔
      ((computeRaw ff obs).unit.equivCt = true ∨ (computeRaw ff obs).unit.equivOne = true))
    ∧ (predictCountsHelper computeRaw ff obs = Except.error "Predicted counts" ↔
      ¬((computeRaw ff obs).unit.equivCt = true ∨ (computeRaw ff obs).unit.equivOne = true)) := by
  unfold predictCountsHelper
  cases hct : (computeRaw ff obs).unit.equivCt <;>
    cases hone : (computeRaw ff obs).unit.equivOne <;> simp [hct, hone]

/-! ### Restriction of the statistic to the fit mask -/

lemma restrictStatval_sum (m : List Bool) (s : List ℝ) (h : m.length = s.length) :
    (restrictStatval m s).sum
      = ∑ i in Finset.range m.length, if m.getD i false then s.getD i 0 else 0 := by
  induction m generalizing s with
  | nil => simp [restrictStatval]
  | cons b mt ih =>
    cases s with
    | nil => simp at h
    | cons x st =>
      have h' : mt.length = st.length := by simpa using h
      simp only [restrictStatval, List.zipWith_cons_cons, List.sum_cons, List.length_cons]
      rw [Finset.sum_range_succ']
      simp only [List.getD_cons_succ, List.getD_cons_zero]
      rw [← restrictStatval] at *
      rw [← ih st h']
      ring

lemma restrictStatval_getD_excluded (m : List Bool) (s : List ℝ) (i : ℕ)
    (h : i < m.length) (hlen : m.length = s.length) (hm : m.getD i false = false) :
    (restrictStatval m s).getD i 0 = 0 := by
  have hl : (restrictStatval m s).length = m.length := by
    simp [restrictStatval, hlen]
  rw [List.getD_eq_getElem _ _ (by rw [hl]; exact h)]
  rw [List.getD_eq_getElem _ _ h] at hm
  simp only [restrictStatval, List.getElem_zipWith]
  simp [hm]

lemma makeFitResultAux_statvals (a : ℕ) :
    ∀ (svs : List (List ℝ)) (heap : Heap) (acc : List SpectrumFitResult),
      (makeFitResultAux heap a svs acc).2.map SpectrumFitResult.statval
        = acc.map SpectrumFitResult.statval ++ svs.map List.sum := by
  intro svs
  induction svs with
  | nil => intro heap acc; simp [makeFitResultAux]
  | cons sv rest ih =>
    intro heap acc
    simp only [makeFitResultAux]
    rw [ih]
    simp

/-- **C5.** After `calc_statval`/`_restrict_statval`, every entry of the
statistic array at a bin excluded by the observation's mask is exactly `0`;
the summed statistic therefore equals the sum over included bins only; and
`_make_fit_result` records per observation exactly the sum of the
(restricted) statistic array. -/
theorem restricted_statval_zero_outside_mask (fitRange : Option (ℚ × ℚ))
    (obs : SpectrumObservation) (sv : List ℝ) (h : sv.length = nbins obs.e_reco) :
    (∀ i, i < nbins obs.e_reco →
        (binsInFitRange fitRange obs).getD i false = false →
        (restrictStatval (binsInFitRange fitRange obs) sv).getD i 0 = 0)
    ∧ (restrictStatval (binsInFitRange fitRange obs) sv).sum
        = (∑ i in Finset.range (nbins obs.e_reco),
            if (binsInFitRange fitRange obs).getD i false then sv.getD i 0 else 0)
    ∧ ∀ (s : ResultState),
        (makeFitResult s).result.map SpectrumFitResult.statval
          = s.result.map SpectrumFitResult.statval ++ s.statvals.map List.sum := by
  have hlen : (binsInFitRange fitRange obs).length = sv.length := by
    rw [length_binsInFitRange, h]
  refine ⟨?_, ?_, ?_⟩
  · intro i hi hm
    exact restrictStatval_getD_excluded _ _ i (by rw [length_binsInFitRange]; exact hi) hlen hm
  · rw [restrictStatval_sum _ _ hlen, length_binsInFitRange]
  · intro s
    have := makeFitResultAux_statvals s.modelAddr s.statvals s.heap s.result
    simp only [makeFitResult]
    exact this

/-- Witness for **C5** at a concrete input: three bins, range `(5, 20)`
(mask `[false, false, true]`), statistic array `[7, 8, 9]`. -/
theorem restricted_statval_zero_outside_mask_witness :
    ([(7 : ℝ), 8, 9].length = nbins obsThreeBins.e_reco)
    ∧ ((∀ i, i < nbins obsThreeBins.e_reco →
        (binsInFitRange (some (5, 20)) obsThreeBins).getD i false = false →
        (restrictStatval (binsInFitRange (some (5, 20)) obsThreeBins) [(7 : ℝ), 8, 9]).getD i 0 = 0)
    ∧ (restrictStatval (binsInFitRange (some (5, 20)) obsThreeBins) [(7 : ℝ), 8, 9]).sum
        = (∑ i in Finset.range (nbins obsThreeBins.e_reco),
            if (binsInFitRange (some (5, 20)) obsThreeBins).getD i false
            then [(7 : ℝ), 8, 9].getD i 0 else 0)
    ∧ ∀ (s : ResultState),
        (makeFitResult s).result.map SpectrumFitResult.statval
          = s.result.map SpectrumFitResult.statval ++ s.statvals.map List.sum) :=
  ⟨by decide, restricted_statval_zero_outside_mask (some (5, 20)) obsThreeBins
    [(7 : ℝ), 8, 9] (by decide)⟩

/-! ### The Cash statistic -/

lemma log_ten_lower : (2.3025 : ℝ) < Real.log 10 := by
  rw [Real.lt_log_iff_exp_lt (by norm_num : (0:ℝ) < 10)]
  rw [show (2.3025:ℝ) = 1 + 1 + 121/400 by norm_num, Real.exp_add, Real.exp_add]
  have hx : Real.exp ((121:ℝ)/400) ≤
      (∑ m in Finset.range 9, ((121:ℝ)/400) ^ m / m.factorial)
        + ((121:ℝ)/400) ^ 9 * (9 + 1) / (Nat.factorial 9 * 9) :=
    Real.exp_bound' (by norm_num) (by norm_num) (by norm_num)
  have hxval : (∑ m in Finset.range 9, ((121:ℝ)/400) ^ m / m.factorial)
        + ((121:ℝ)/400) ^ 9 * (9 + 1) / (Nat.factorial 9 * 9) ≤ 1.3532379 := by
    simp only [Finset.sum_range_succ, Finset.sum_range_zero, Nat.factorial]
    norm_num
  have hexp1 : Real.exp 1 * Real.exp 1 < 2.7182818286 * 2.7182818286 :=
    mul_self_lt_mul_self (Real.exp_pos 1).le Real.exp_one_lt_d9
  calc Real.exp 1 * Real.exp 1 * Real.exp ((121:ℝ)/400)
      ≤ Real.exp 1 * Real.exp 1 * 1.3532379 :=
        mul_le_mul_of_nonneg_left (le_trans hx hxval) (by positivity)
    _ < 2.7182818286 * 2.7182818286 * 1.3532379 :=
        mul_lt_mul_of_pos_right hexp1 (by norm_num)
    _ < 10 := by norm_num

lemma log_ten_upper : Real.log 10 < 2.3026 := by
  rw [Real.log_lt_iff_lt_exp (by norm_num : (0:ℝ) < 10)]
  rw [show (2.3026:ℝ) = 1 + 1 + 1513/5000 by norm_num, Real.exp_add, Real.exp_add]
  have hsum : (∑ m in Finset.range 9, ((1513:ℝ)/5000) ^ m / m.factorial)
      ≤ Real.exp ((1513:ℝ)/5000) := Real.sum_le_exp_of_nonneg (by norm_num) 9
  have hsumval : (1.3533730 : ℝ)
      ≤ ∑ m in Finset.range 9, ((1513:ℝ)/5000) ^ m / m.factorial := by
    simp only [Finset.sum_range_succ, Finset.sum_range_zero, Nat.factorial]
    norm_num
  have hexp1 : (2.7182818283:ℝ) * 2.7182818283 < Real.exp 1 * Real.exp 1 :=
    mul_self_lt_mul_self (by norm_num) Real.exp_one_gt_d9
  calc (10:ℝ) < 2.7182818283 * 2.7182818283 * 1.3533730 := by norm_num
    _ ≤ Real.exp 1 * Real.exp 1 * 1.3533730 :=
        mul_le_mul_of_nonneg_right hexp1.le (by norm_num)
    _ ≤ Real.exp 1 * Real.exp 1 * Real.exp ((1513:ℝ)/5000) :=
        mul_le_mul_of_nonneg_left (le_trans hsumval hsum) (by positivity)

/-- **C4.** With `stat = 'cash'`, `_calc_statval_helper` returns per bin the
value `2 * (mu - n*ln(mu))` of the observed count `n` and predicted count
`mu` of that bin (in particular `n = mu = 10` gives `2*(10 - 10*ln 10)`,
which lies in `(-26.052, -26.05)`, i.e. `≈ -26.05`), and the evaluation is
a pure function of the observed and predicted counts: equal inputs give
equal per-bin statistic arrays. -/
theorem cash_statistic_formula (wstatFn : ℝ → ℝ → ℝ → ℝ → ℝ)
    (obs : SpectrumObservation) (pred : List ℝ) (i : ℕ)
    (h1 : i < obs.on_counts.length) (h2 : i < pred.length) :
    calcStatvalHelper Real.log wstatFn "cash" obs pred
      = Except.ok (List.zipWith (cash Real.log) obs.on_counts pred)
    ∧ (List.zipWith (cash Real.log) obs.on_counts pred).getD i 0
        = 2 * (pred.getD i 0 - obs.on_counts.getD i 0 * Real.log (pred.getD i 0))
    ∧ cash Real.log 10 10 = 2 * (10 - 10 * Real.log 10)
    ∧ (-26.052 < cash Real.log 10 10 ∧ cash Real.log 10 10 < -26.05)
    ∧ ∀ (obs2 : SpectrumObservation) (pred2 : List ℝ),
        obs2.on_counts = obs.on_counts → pred2 = pred →
        calcStatvalHelper Real.log wstatFn "cash" obs2 pred2
          = calcStatvalHelper Real.log wstatFn "cash" obs pred := by
  refine ⟨rfl, ?_, rfl, ⟨?_, ?_⟩, ?_⟩
  · have hz : i < (List.zipWith (cash Real.log) obs.on_counts pred).length := by
      rw [List.length_zipWith]
      omega
    rw [List.getD_eq_getElem _ _ hz, List.getD_eq_getElem _ _ h1,
      List.getD_eq_getElem _ _ h2, List.getElem_zipWith]
    rfl
  · unfold cash
    nlinarith [log_ten_lower, log_ten_upper]
  · unfold cash
    nlinarith [log_ten_lower, log_ten_upper]
  · intro obs2 pred2 hobs hpred
    simp [calcStatvalHelper, hobs, hpred]

/-- Witness for **C4**: two observed bins with `n = mu = 10`. -/
theorem cash_statistic_formula_witness :
    (0 < (SpectrumObservation.mk [1, 2, 3] [10, 10] [0, 0] 1 none).on_counts.length
      ∧ 0 < ([10, 10] : List ℝ).length)
    ∧ (calcStatvalHelper Real.log (fun _ _ _ _ => 0) "cash"
        (SpectrumObservation.mk [1, 2, 3] [10, 10] [0, 0] 1 none) [10, 10]
      = Except.ok (List.zipWith (cash Real.log)
          (SpectrumObservation.mk [1, 2, 3] [10, 10] [0, 0] 1 none).on_counts [10, 10])
    ∧ (List.zipWith (cash Real.log)
          (SpectrumObservation.mk [1, 2, 3] [10, 10] [0, 0] 1 none).on_counts [10, 10]).getD 0 0
        = 2 * (([10, 10] : List ℝ).getD 0 0
            - (SpectrumObservation.mk [1, 2, 3] [10, 10] [0, 0] 1 none).on_counts.getD 0 0
              * Real.log (([10, 10] : List ℝ).getD 0 0))
    ∧ cash Real.log 10 10 = 2 * (10 - 10 * Real.log 10)
    ∧ (-26.052 < cash Real.log 10 10 ∧ cash Real.log 10 10 < -26.05)
    ∧ ∀ (obs2 : SpectrumObservation) (pred2 : List ℝ),
        obs2.on_counts = (SpectrumObservation.mk [1, 2, 3] [10, 10] [0, 0] 1 none).on_counts →
        pred2 = [10, 10] →
        calcStatvalHelper Real.log (fun _ _ _ _ => 0) "cash" obs2 pred2
          = calcStatvalHelper Real.log (fun _ _ _ _ => 0) "cash"
              (SpectrumObservation.mk [1, 2, 3] [10, 10] [0, 0] 1 none) [10, 10]) :=
  ⟨⟨by simp, by simp⟩, cash_statistic_formula (fun _ _ _ _ => 0)
    (SpectrumObservation.mk [1, 2, 3] [10, 10] [0, 0] 1 none) [10, 10] 0
    (by simp) (by simp)⟩

/-! ### Characterising the range exclusion -/

lemma mem_idxHi {edges : List ℚ} {hi : ℚ} {k : ℕ} :
    k ∈ idxHi edges hi ↔ k < nbins edges ∧ hi < edges.getD k 0 := by
  simp [idxHi, List.mem_filter, List.mem_range]

lemma idxHi_pairwise (edges : List ℚ) (hi : ℚ) : (idxHi edges hi).Pairwise (· < ·) :=
  (List.pairwise_lt_range _).filter _

lemma idxHi_head_least {edges : List ℚ} {hi : ℚ} {f : ℕ} {rest : List ℕ}
    (h : idxHi edges hi = f :: rest) :
    f < nbins edges ∧ hi < edges.getD f 0 ∧ ∀ k, k < f → ¬hi < edges.getD k 0 := by
  have hf : f ∈ idxHi edges hi := by rw [h]; exact List.mem_cons_self f rest
  obtain ⟨hfn, hfe⟩ := mem_idxHi.mp hf
  refine ⟨hfn, hfe, ?_⟩
  intro k hk hke
  have hkmem : k ∈ idxHi edges hi := mem_idxHi.mpr ⟨lt_trans hk hfn, hke⟩
  rw [h] at hkmem
  rcases List.mem_cons.mp hkmem with rfl | hkr
  · exact absurd hk (lt_irrefl _)
  · have hp := idxHi_pairwise edges hi
    rw [h] at hp
    have := (List.pairwise_cons.mp hp).1 k hkr
    omega

lemma getD_mono {edges : List ℚ} (hsort : edges.Pairwise (· < ·)) {i j : ℕ}
    (hij : i ≤ j) (hj : j < edges.length) : edges.getD i 0 ≤ edges.getD j 0 := by
  rcases Nat.eq_or_lt_of_le hij with rfl | hlt
  · exact le_refl _
  · rw [List.getD_eq_getElem _ _ (lt_trans hlt hj), List.getD_eq_getElem _ _ hj]
    exact le_of_lt (List.pairwise_iff_getElem.mp hsort i j (lt_trans hlt hj) hj hlt)

/-- For strictly increasing edges, bin `i` is marked out of a set global
range exactly when its lower edge is below the lower bound, or its lower
edge exceeds the upper bound, or it sits just below the first bin whose
lower edge exceeds the upper bound. -/
lemma excludedByRange_some_iff {edges : List ℚ} (hsort : edges.Pairwise (· < ·))
    {lo hi : ℚ} {i : ℕ} (hilt : i < nbins edges) :
    excludedByRange edges (some (lo, hi)) i = true ↔
      (edges.getD i 0 < lo ∨ hi < edges.getD i 0 ∨
        ∃ f, 0 < f ∧ i = f - 1 ∧ f < nbins edges ∧ hi < edges.getD f 0 ∧
          ∀ k, k < f → ¬hi < edges.getD k 0) := by
  have hmem : excludedByRange edges (some (lo, hi)) i = true ↔
      (edges.getD i 0 < lo ∨ i ∈ idxHiIns edges hi) := by
    simp [excludedByRange, excludedLo]
  rw [hmem]
  cases hHi : idxHi edges hi with
  | nil =>
    have hnon : ∀ k, k < nbins edges → ¬hi < edges.getD k 0 := by
      intro k hk hke
      have : k ∈ idxHi edges hi := mem_idxHi.mpr ⟨hk, hke⟩
      rw [hHi] at this
      exact absurd this (List.not_mem_nil k)
    constructor
    · intro h
      rcases h with h | h
      · exact Or.inl h
      · rw [idxHiIns, hHi] at h
        exact absurd h (List.not_mem_nil i)
    · intro h
      rcases h with h | h | ⟨f, _, _, hfn, hfe, _⟩
      · exact Or.inl h
      · exact absurd h (hnon i hilt)
      · exact absurd hfe (hnon f hfn)
  | cons f rest =>
    obtain ⟨hfn, hfe, hleast⟩ := idxHi_head_least hHi
    have hins : idxHiIns edges hi = (if f = 0 then nbins edges - 1 else f - 1) :: f :: rest := by
      rw [idxHiIns, hHi]
    by_cases hf0 : f = 0
    · subst hf0
      have hall : ∀ j, j < nbins edges → hi < edges.getD j 0 := by
        intro j hj
        refine lt_of_lt_of_le hfe (getD_mono hsort (Nat.zero_le j) ?_)
        unfold nbins at hj
        omega
      have hrhs : hi < edges.getD i 0 := hall i hilt
      have hlhs : i ∈ idxHiIns edges hi := by
        rw [hins]
        have : i ∈ idxHi edges hi := mem_idxHi.mpr ⟨hilt, hrhs⟩
        rw [hHi] at this
        exact List.mem_cons_of_mem _ this
      constructor
      · intro _
        exact Or.inr (Or.inl hrhs)
      · intro _
        exact Or.inr hlhs
    · have hexist : (∃ g, 0 < g ∧ i = g - 1 ∧ g < nbins edges ∧ hi < edges.getD g 0 ∧
          ∀ k, k < g → ¬hi < edges.getD k 0) ↔ i = f - 1 := by
        constructor
        · rintro ⟨g, hg0, hig, hgn, hge, hgleast⟩
          have hgf : g = f := by
            rcases lt_trichotomy g f with h | h | h
            · exact absurd hge (hleast g h)
            · exact h
            · exact absurd hfe (hgleast f h)
          omega
        · intro h
          exact ⟨f, Nat.pos_of_ne_zero hf0, h, hfn, hfe, hleast⟩
      have hmem2 : i ∈ idxHiIns edges hi ↔ (i = f - 1 ∨ hi < edges.getD i 0) := by
        rw [hins, if_neg hf0]
        constructor
        · intro h
          rcases List.mem_cons.mp h with h | h
          · exact Or.inl h
          · have : i ∈ idxHi edges hi := by rw [hHi]; exact h
            exact Or.inr (mem_idxHi.mp this).2
        · intro h
          rcases h with h | h
          · rw [h]
            exact List.mem_cons_self (f - 1) (f :: rest)
          · have : i ∈ idxHi edges hi := mem_idxHi.mpr ⟨hilt, h⟩
            rw [hHi] at this
            exact List.mem_cons_of_mem _ this
      rw [hmem2, hexist]
      tauto

/-- The exclusion rule exactly as the spec/claim words it (this definition
follows the claim's words, to be compared with the source-derived mask): a
bin is excluded iff its *upper* edge is below the global lower bound, or
its lower edge is above the global upper bound, or it is flagged bad
quality, or it is the bin adjacent to the first bin whose lower edge
exceeds the upper bound. -/
def claimedExcluded (edges : List ℚ) (lo hi : ℚ) (badQuality : Bool) (i : ℕ) : Bool :=
  decide (edges.getD (i + 1) 0 < lo) || decide (hi < edges.getD i 0) || badQuality ||
    (match idxHi edges hi with
     | [] => false
     | f :: _ => decide (i + 1 = f))

/-- Counterexample to **C2** as stated: edges `2,4,6,8`, global range
`(5, 20)`, no quality flags.  Bin 1 (edges 4 and 6) straddles the lower
bound: its upper edge 6 is not below 5, so the claim calls it included,
but `_apply_fit_range` excludes it (`energy < fit_range[0]` marks every bin
whose *lower* edge is below the bound). -/
theorem claimed_exclusion_counterexample :
    (binsInFitRange (some (5, 20)) obsThreeBins).getD 1 false = false
    ∧ claimedExcluded obsThreeBins.e_reco 5 20 false 1 = false := by
  constructor
  · decide
  · decide

/-- **C2 (amended).** For strictly increasing bin edges, a bin is excluded
from the fit mask exactly when its *lower* edge is below the global lower
bound (so the bin straddling the lower boundary is excluded too), or its
lower edge is above the global upper bound, or it is flagged bad quality,
or it sits just below the first bin whose lower edge exceeds the upper
bound (the boundary-straddling bin on the high side). -/
theorem fit_mask_excluded_iff (obs : SpectrumObservation) (lo hi : ℚ) (i : ℕ)
    (hsort : obs.e_reco.Pairwise (· < ·)) (hilt : i < nbins obs.e_reco) :
    ((binsInFitRange (some (lo, hi)) obs).getD i false = false ↔
      (obs.e_reco.getD i 0 < lo ∨ hi < obs.e_reco.getD i 0
        ∨ (qualityOf obs).getD i false = true
        ∨ ∃ f, 0 < f ∧ i = f - 1 ∧ f < nbins obs.e_reco ∧ hi < obs.e_reco.getD f 0 ∧
            ∀ k, k < f → ¬hi < obs.e_reco.getD k 0)) := by
  rw [getD_binsInFitRange _ _ _ hilt]
  have hex := @excludedByRange_some_iff obs.e_reco hsort lo hi i hilt
  cases hq : (qualityOf obs).getD i false <;>
    cases he : excludedByRange obs.e_reco (some (lo, hi)) i
  · rw [he] at hex
    constructor
    · intro h
      exact absurd h (by simp)
    · rintro (h | h | h | h)
      · exact absurd (hex.mpr (Or.inl h)) (by simp)
      · exact absurd (hex.mpr (Or.inr (Or.inl h))) (by simp)
      · exact absurd h (by simp)
      · exact absurd (hex.mpr (Or.inr (Or.inr h))) (by simp)
  · rw [he] at hex
    have hd := hex.mp rfl
    constructor
    · intro _
      tauto
    · intro _
      simp
  · constructor
    · intro _
      tauto
    · intro _
      simp
  · constructor
    · intro _
      tauto
    · intro _
      simp

/-- Witness for **C2 (amended)**: edges `2,4,6,8`, range `(5, 20)`,
bin 1 is excluded because its lower edge 4 is below 5. -/
theorem fit_mask_excluded_iff_witness :
    (obsThreeBins.e_reco.Pairwise (· < ·) ∧ 1 < nbins obsThreeBins.e_reco)
    ∧ ((binsInFitRange (some (5, 20)) obsThreeBins).getD 1 false = false ↔
      (obsThreeBins.e_reco.getD 1 0 < 5 ∨ (20 : ℚ) < obsThreeBins.e_reco.getD 1 0
        ∨ (qualityOf obsThreeBins).getD 1 false = true
        ∨ ∃ f, 0 < f ∧ 1 = f - 1 ∧ f < nbins obsThreeBins.e_reco
            ∧ (20 : ℚ) < obsThreeBins.e_reco.getD f 0 ∧
            ∀ k, k < f → ¬(20 : ℚ) < obsThreeBins.e_reco.getD k 0)) :=
  ⟨⟨by decide, by decide⟩,
    fit_mask_excluded_iff obsThreeBins 5 20 1 (by decide) (by decide)⟩

/-! ### The true fit range -/

lemma mem_includedIdx {fitRange : Option (ℚ × ℚ)} {obs : SpectrumObservation} {i : ℕ} :
    i ∈ includedIdx fitRange obs ↔
      i < nbins obs.e_reco ∧ (binsInFitRange fitRange obs).getD i false = true := by
  simp [includedIdx, List.mem_filter, List.mem_range, length_binsInFitRange]

lemma excludedByRange_eq_false {edges : List ℚ} {lo hi : ℚ} {i : ℕ} :
    excludedByRange edges (some (lo, hi)) i = false ↔
      (¬edges.getD i 0 < lo ∧ i ∉ idxHiIns edges hi) := by
  simp [excludedByRange, excludedLo]

/-- Counterexample to **C3** as stated: edges `2,4,6`, global range `(2, 5)`.
The upper bound 5 falls strictly inside the last bin and no bin's lower
edge exceeds it, so the high-side exclusion never triggers; the true fit
range is `(2, 6)`, whose upper edge 6 lies outside the requested range. -/
theorem true_fit_range_counterexample :
    trueFitRange (some (2, 5)) obsTwoBins = some (2, 6) ∧ ¬((6 : ℚ) ≤ 5) := by
  constructor
  · decide
  · decide

/-- **C3 (amended).** When the fit mask keeps at least one bin,
`true_fit_range` returns the lower edge of the first included bin and the
upper edge of the last included bin; both are edges of the observation's
energy axis, the lower endpoint is at least the requested lower bound, and
the upper endpoint is at most the requested upper bound *provided* some
bin's lower edge exceeds the upper bound (otherwise — the upper bound
inside or above the last surviving bin — the upper endpoint can exceed the
request, as the counterexample shows). -/
theorem true_fit_range_endpoints (fitRange : Option (ℚ × ℚ))
    (obs : SpectrumObservation) (emin emax : ℚ)
    (hsort : obs.e_reco.Pairwise (· < ·))
    (h : trueFitRange fitRange obs = some (emin, emax)) :
    emin ∈ obs.e_reco ∧ emax ∈ obs.e_reco
    ∧ ∀ lo hi, fitRange = some (lo, hi) →
        lo ≤ emin ∧ ((∃ k, k < nbins obs.e_reco ∧ hi < obs.e_reco.getD k 0) → emax ≤ hi) := by
  cases hidx : includedIdx fitRange obs with
  | nil =>
    rw [trueFitRange, hidx] at h
    exact absurd h (by simp)
  | cons i0 t =>
    rw [trueFitRange, hidx] at h
    have h2 : some (obs.e_reco.getD i0 0, obs.e_reco.getD ((i0 :: t).getLastD 0 + 1) 0)
        = some (emin, emax) := h
    simp only [Option.some.injEq, Prod.mk.injEq] at h2
    obtain ⟨hmin, hmax⟩ := h2
    have hi0 : i0 ∈ includedIdx fitRange obs := by
      rw [hidx]; exact List.mem_cons_self i0 t
    obtain ⟨hi0n, hi0mask⟩ := mem_includedIdx.mp hi0
    have hi0len : i0 < obs.e_reco.length := by
      unfold nbins at hi0n; omega
    have hiLmem : (i0 :: t).getLastD 0 ∈ includedIdx fitRange obs := by
      rw [hidx]
      have hne : (i0 :: t) ≠ ([] : List ℕ) := by simp
      have : (i0 :: t).getLastD 0 = (i0 :: t).getLast hne := by
        rw [List.getLastD_eq_getLast?, List.getLast?_eq_getLast _ hne, Option.getD_some]
      rw [this]
      exact List.getLast_mem hne
    obtain ⟨hiLn, hiLmask⟩ := mem_includedIdx.mp hiLmem
    have hiLlen : (i0 :: t).getLastD 0 + 1 < obs.e_reco.length := by
      unfold nbins at hiLn; omega
    refine ⟨?_, ?_, ?_⟩
    · rw [← hmin, List.getD_eq_getElem _ _ hi0len]
      exact List.getElem_mem hi0len
    · rw [← hmax, List.getD_eq_getElem _ _ hiLlen]
      exact List.getElem_mem hiLlen
    · rintro lo hi rfl
      rw [getD_binsInFitRange _ _ _ hi0n] at hi0mask
      rw [getD_binsInFitRange _ _ _ hiLn] at hiLmask
      simp only [Bool.and_eq_true, Bool.not_eq_true'] at hi0mask hiLmask
      obtain ⟨hnlo0, _⟩ := excludedByRange_eq_false.mp hi0mask.2
      obtain ⟨_, hiLnotmem⟩ := excludedByRange_eq_false.mp hiLmask.2
      constructor
      · rw [← hmin]
        exact not_lt.mp hnlo0
      · rintro ⟨k, hkn, hke⟩
        have hkmem : k ∈ idxHi obs.e_reco hi := mem_idxHi.mpr ⟨hkn, hke⟩
        cases hHi : idxHi obs.e_reco hi with
        | nil => rw [hHi] at hkmem; exact absurd hkmem (List.not_mem_nil k)
        | cons f rest =>
          obtain ⟨hfn, hfe, hleast⟩ := idxHi_head_least hHi
          have hins : idxHiIns obs.e_reco hi
              = (if f = 0 then nbins obs.e_reco - 1 else f - 1) :: f :: rest := by
            rw [idxHiIns, hHi]
          set iL := (i0 :: t).getLastD 0 with hiLdef
          have hiLnotHi : ¬hi < obs.e_reco.getD iL 0 := by
            intro hlt
            apply hiLnotmem
            rw [hins]
            have : iL ∈ idxHi obs.e_reco hi := mem_idxHi.mpr ⟨hiLn, hlt⟩
            rw [hHi] at this
            exact List.mem_cons_of_mem _ this
          have hiLf : iL < f := by
            by_contra hcon
            push_neg at hcon
            have : obs.e_reco.getD f 0 ≤ obs.e_reco.getD iL 0 :=
              getD_mono hsort hcon (by unfold nbins at hiLn; omega)
            exact hiLnotHi (lt_of_lt_of_le hfe this)
          have hf0 : f ≠ 0 := by omega
          have hiLne : iL ≠ f - 1 := by
            intro hcon
            apply hiLnotmem
            rw [hins, if_neg hf0, hcon]
            exact List.mem_cons_self _ _
          have hstep : iL + 1 < f := by omega
          have : ¬hi < obs.e_reco.getD (iL + 1) 0 := hleast (iL + 1) hstep
          rw [← hmax]
          exact not_lt.mp this

/-- Witness for **C3 (amended)**: edges `2,4,6,8`, range `(5, 20)`.  The
mask is `[false, false, true]`, so the true fit range is `(6, 8)`. -/
theorem true_fit_range_endpoints_witness :
    (obsThreeBins.e_reco.Pairwise (· < ·)
      ∧ trueFitRange (some (5, 20)) obsThreeBins = some (6, 8))
    ∧ ((6 : ℚ) ∈ obsThreeBins.e_reco ∧ (8 : ℚ) ∈ obsThreeBins.e_reco
      ∧ ∀ lo hi, (some ((5 : ℚ), (20 : ℚ))) = some (lo, hi) →
          lo ≤ 6 ∧ ((∃ k, k < nbins obsThreeBins.e_reco
            ∧ hi < obsThreeBins.e_reco.getD k 0) → 8 ≤ hi)) :=
  ⟨⟨by decide, by decide⟩,
    true_fit_range_endpoints (some (5, 20)) obsThreeBins 6 8 (by decide) (by decide)⟩

/-! ### Ordering of prediction and statistic evaluation -/

/-- A stand-in for the external model evaluation: returns the observation's
own counts with a counts-equivalent unit. -/
def computeRawCt : Bool → SpectrumObservation → Quantity :=
  fun _ obs => ⟨obs.on_counts, ⟨true, false⟩⟩

/-- Counterexample to **C7** as stated: with `stat = 'bogus'` the iteration
does raise `NotImplementedError('bogus')`, but only from
`_calc_statval_helper`, *after* `predict_counts` has already populated
`self.predicted_counts` — not before counts are predicted. -/
theorem bogus_stat_counterexample :
    (fitIteration computeRawCt (fun x => x) (fun _ _ _ _ => 0) "bogus" true none
        [obsTwoBins]).2 = Except.error "bogus"
    ∧ (fitIteration computeRawCt (fun x => x) (fun _ _ _ _ => 0) "bogus" true none
        [obsTwoBins]).1.predicted_counts = some [obsTwoBins.on_counts]
    ∧ some [obsTwoBins.on_counts] ≠ (none : Option (List (List ℝ))) :=
  ⟨rfl, rfl, by simp⟩

/-- **C7 (amended).** For a statistic name other than `'cash'` and
`'wstat'` and at least one observation, the fit iteration raises
`NotImplementedError(stat)` at the first statistic evaluation, which
happens only *after* the counts of every observation have been predicted
and stored. -/
theorem unsupported_stat_raises_after_prediction
    (computeRaw : Bool → SpectrumObservation → Quantity) (log : ℝ → ℝ)
    (wstatFn : ℝ → ℝ → ℝ → ℝ → ℝ) (stat : String) (ff : Bool)
    (fitRange : Option (ℚ × ℚ)) (obs : SpectrumObservation)
    (rest : List SpectrumObservation) (pcs : List (List ℝ))
    (hc : stat ≠ "cash") (hw : stat ≠ "wstat")
    (hp : predictCounts computeRaw ff (obs :: rest) = Except.ok pcs) :
    (fitIteration computeRaw log wstatFn stat ff fitRange (obs :: rest)).1.predicted_counts
        = some pcs
    ∧ (fitIteration computeRaw log wstatFn stat ff fitRange (obs :: rest)).2
        = Except.error stat := by
  have hpcs : ∃ c cs, pcs = c :: cs := by
    unfold predictCounts at hp
    cases hh : predictCountsHelper computeRaw ff obs with
    | error e => rw [hh] at hp; exact absurd hp (by simp)
    | ok c =>
      rw [hh] at hp
      cases hrest : predictCounts computeRaw ff rest with
      | error e => rw [hrest] at hp; exact absurd hp (by simp)
      | ok cs =>
        rw [hrest] at hp
        exact ⟨c, cs, by injection hp with h2; rw [← h2]⟩
  obtain ⟨c, cs, rfl⟩ := hpcs
  have hh : calcStatvalHelper log wstatFn stat obs c = Except.error stat := by
    unfold calcStatvalHelper
    rw [if_neg hc, if_neg hw]
  have hstat : calcStatval log wstatFn stat fitRange (obs :: rest) (c :: cs)
      = Except.error stat := by
    unfold calcStatval
    rw [hh]
  refine ⟨?_, ?_⟩ <;> simp [fitIteration, hp, hstat]

/-- Witness for **C7 (amended)**: one observation, `stat = 'bogus'`. -/
theorem unsupported_stat_raises_after_prediction_witness :
    ("bogus" ≠ "cash" ∧ "bogus" ≠ "wstat"
      ∧ predictCounts computeRawCt true [obsTwoBins]
          = Except.ok [obsTwoBins.on_counts])
    ∧ ((fitIteration computeRawCt (fun x => x) (fun _ _ _ _ => 0) "bogus" true none
          [obsTwoBins]).1.predicted_counts = some [obsTwoBins.on_counts]
      ∧ (fitIteration computeRawCt (fun x => x) (fun _ _ _ _ => 0) "bogus" true none
          [obsTwoBins]).2 = Except.error "bogus") :=
  ⟨⟨by decide, by decide, rfl⟩,
    unsupported_stat_raises_after_prediction computeRawCt (fun x => x)
      (fun _ _ _ _ => 0) "bogus" true none obsTwoBins [] [obsTwoBins.on_counts]
      (by decide) (by decide) rfl⟩

/-! ### The model snapshot is a copy -/

lemma getD_append_left {α : Type} (l l2 : List α) (i : ℕ) (d : α)
    (h : i < l.length) : (l ++ l2).getD i d = l.getD i d := by
  rw [List.getD_eq_getElem _ _ (by rw [List.length_append]; omega),
    List.getD_eq_getElem _ _ h]
  exact List.getElem_append_left h

lemma getD_append_last {α : Type} (l : List α) (x : α) (d : α) :
    (l ++ [x]).getD l.length d = x := by
  simp [List.getD_eq_getElem?_getD]

lemma makeFitResultAux_get_preserved (a : ℕ) :
    ∀ (svs : List (List ℝ)) (heap : Heap) (acc : List SpectrumFitResult) (b : ℕ),
      b < heap.cells.length →
      (makeFitResultAux heap a svs acc).1.get b = heap.get b := by
  intro svs
  induction svs with
  | nil =>
    intro heap acc b _
    rfl
  | cons sv rest ih =>
    intro heap acc b hb
    simp only [makeFitResultAux, Heap.copyFrom]
    rw [ih ⟨heap.cells ++ [heap.get a]⟩ _ b (by simp; omega)]
    unfold Heap.get
    exact getD_append_left _ _ _ _ hb

lemma makeFitResultAux_results (a : ℕ) :
    ∀ (svs : List (List ℝ)) (heap : Heap) (acc : List SpectrumFitResult),
      a < heap.cells.length →
      ∀ r ∈ (makeFitResultAux heap a svs acc).2,
        r ∈ acc ∨ (heap.cells.length ≤ r.modelAddr
          ∧ (makeFitResultAux heap a svs acc).1.get r.modelAddr = heap.get a) := by
  intro svs
  induction svs with
  | nil =>
    intro heap acc _ r hr
    left
    simpa [makeFitResultAux] using hr
  | cons sv rest ih =>
    intro heap acc ha r hr
    simp only [makeFitResultAux, Heap.copyFrom] at hr ⊢
    have ha1 : a < (Heap.mk (heap.cells ++ [heap.get a])).cells.length := by
      simp
      omega
    have hmain := ih ⟨heap.cells ++ [heap.get a]⟩
      (acc ++ [⟨heap.cells.length, sv.sum⟩]) ha1 r hr
    have hget1 : Heap.get ⟨heap.cells ++ [heap.get a]⟩ a = heap.get a := by
      unfold Heap.get
      exact getD_append_left _ _ _ _ ha
    rcases hmain with hmem | ⟨hge, hget⟩
    · rcases List.mem_append.mp hmem with hmem2 | hmem2
      · exact Or.inl hmem2
      · right
        have hr2 : r = ⟨heap.cells.length, sv.sum⟩ := by simpa using hmem2
        subst hr2
        refine ⟨le_refl _, ?_⟩
        rw [makeFitResultAux_get_preserved a rest ⟨heap.cells ++ [heap.get a]⟩ _ _
          (by simp)]
        unfold Heap.get
        exact getD_append_last _ _ _
    · right
      refine ⟨?_, ?_⟩
      · simp at hge
        omega
      · rw [hget]
        exact hget1

/-- **C8.** Each result appended by `_make_fit_result` stores a *copy* of
the live model (`self.model.copy()`), at a fresh heap address distinct from
the live model's; therefore mutating the live model afterwards (writing any
`m2` through `self.model`'s address) leaves every result's snapshot equal
to the model value at assembly time. -/
theorem result_model_snapshot_immutable (s : ResultState) (m2 : Model)
    (hres : s.result = []) (ha : s.modelAddr < s.heap.cells.length) :
    ∀ r ∈ (makeFitResult s).result,
      r.modelAddr ≠ s.modelAddr
      ∧ ((makeFitResult s).heap.set s.modelAddr m2).get r.modelAddr
          = s.heap.get s.modelAddr := by
  intro r hr
  have hr' : r ∈ (makeFitResultAux s.heap s.modelAddr s.statvals s.result).2 := by
    simpa [makeFitResult] using hr
  have hmain := makeFitResultAux_results s.modelAddr s.statvals s.heap s.result ha r hr'
  rcases hmain with hmem | ⟨hge, hget⟩
  · rw [hres] at hmem
    exact absurd hmem (List.not_mem_nil r)
  · have hne : r.modelAddr ≠ s.modelAddr := by omega
    refine ⟨hne, ?_⟩
    have hset : ((makeFitResult s).heap.set s.modelAddr m2).get r.modelAddr
        = (makeFitResult s).heap.get r.modelAddr := by
      unfold Heap.set Heap.get
      simp [List.getD_eq_getElem?_getD,
        List.getElem?_set_ne (show s.modelAddr ≠ r.modelAddr from fun hc => hne hc.symm)]
    rw [hset]
    have hh : (makeFitResult s).heap
        = (makeFitResultAux s.heap s.modelAddr s.statvals s.result).1 := by
      simp [makeFitResult]
    rw [hh]
    exact hget

/-- A concrete assembler state: one model object `⟨[3]⟩` in the heap, live
model at address 0, two observations' statistics pending, empty result
list. -/
def stateTwoObs : ResultState := ⟨⟨[⟨[3]⟩]⟩, 0, [[1], [2]], []⟩

/-- Witness for **C8** at `stateTwoObs`, mutating the live model to `⟨[9]⟩`
after assembly. -/
theorem result_model_snapshot_immutable_witness :
    (stateTwoObs.result = [] ∧ stateTwoObs.modelAddr < stateTwoObs.heap.cells.length)
    ∧ ∀ r ∈ (makeFitResult stateTwoObs).result,
        r.modelAddr ≠ stateTwoObs.modelAddr
        ∧ ((makeFitResult stateTwoObs).heap.set stateTwoObs.modelAddr ⟨[9]⟩).get r.modelAddr
            = stateTwoObs.heap.get stateTwoObs.modelAddr :=
  ⟨⟨rfl, by decide⟩, result_model_snapshot_immutable stateTwoObs ⟨[9]⟩ rfl (by decide)⟩

end SpectrumFit
